import Mathlib

/-!
Verification of the bsv-agent job ingestion/settlement loop.

The agent process (poller, job parser, LLM step, settlement builder and
job store) and the web front end (chat handler, bridge correlator) are
embedded shallowly:

* JS byte buffers become `Bytes := List Nat` (each entry one byte);
  JS strings that cross the `Buffer.from(s, 'utf8')` boundary are encoded
  with an explicit UTF-8 encoder `str`.
* The external collaborators (WhatsOnChain HTTP API, Ollama, and the
  scrypt-ts script/signing library) are the opaque capabilities of the
  spec: they appear as function-valued fields of an `Env` record, so the
  honest control flow of the repository code is kept while the network
  and cryptography stay abstract.  Network promise rejections are `Except`
  values, resolved nulls are `Option.none`.
* Stateful code (the jobs.json append-only store, the in-memory seen set,
  per-IP conversation files) is explicit state passing: the JS re-reads
  the file on each access and the process is single threaded, so the
  threaded-list model coincides with the file behaviour.
-/

namespace BsvAgent

/-- A byte buffer: the shallow embedding of a Node `Buffer`. -/
abbrev Bytes := List Nat

/-- UTF-8 encoding of one character (the standard 1-4 byte form used by
`Buffer.from(s, 'utf8')`). -/
def utf8EncodeChar (c : Char) : Bytes :=
  let n := c.toNat
  if n < 128 then [n]
  else if n < 2048 then [192 + n / 64, 128 + n % 64]
  else if n < 65536 then [224 + n / 4096, 128 + n / 64 % 64, 128 + n % 64]
  else [240 + n / 262144, 128 + n / 4096 % 64, 128 + n / 64 % 64, 128 + n % 64]

/-- `Buffer.from(s, 'utf8')`: the UTF-8 bytes of a string. -/
def str (s : String) : Bytes :=
  s.data.flatMap utf8EncodeChar

/-- Hex digit value, accepting both cases exactly as `Buffer.from(s, 'hex')`
does. -/
def hexVal (c : Char) : Option Nat :=
  if '0' ≤ c ∧ c ≤ '9' then some (c.toNat - 48)
  else if 'a' ≤ c ∧ c ≤ 'f' then some (c.toNat - 87)
  else if 'A' ≤ c ∧ c ≤ 'F' then some (c.toNat - 55)
  else none

/-- Lowercase hex digit for a nibble, as produced by `Buffer.toString('hex')`. -/
def hexDigitChar (n : Nat) : Char :=
  if n < 10 then Char.ofNat (48 + n) else Char.ofNat (87 + n)

/-- The two hex characters of one byte (`toString('hex')` per byte). -/
def byteToHexChars (b : Nat) : List Char :=
  [hexDigitChar (b / 16 % 16), hexDigitChar (b % 16)]

/-- `Buffer.from(s, 'hex')` on a character list: consumes pairs of hex
digits and stops at the first invalid pair (Node truncates there). -/
def hexDecodeChars : List Char → Bytes
  | c1 :: c2 :: rest =>
    match hexVal c1, hexVal c2 with
    | some a, some b => (16 * a + b) :: hexDecodeChars rest
    | _, _ => []
  | _ => []

/-- `Buffer.from(s, 'hex')`. -/
def hexDecodeString (s : String) : Bytes :=
  hexDecodeChars s.data

/-- `buf.toString('hex')`. -/
def hexEncode (b : Bytes) : String :=
  ⟨b.flatMap byteToHexChars⟩

/-- A character is a lowercase hex digit: it has a digit value that
round-trips through the lowercase encoder. -/
def lowHexB (c : Char) : Bool :=
  match hexVal c with
  | some v => decide (v < 16) && (hexDigitChar v == c)
  | none => false

/-- A 64-character lowercase-hex transaction id, the form WhatsOnChain
reports ids in. -/
def ValidTxIdHex (s : String) : Prop :=
  s.data.length = 64 ∧ ∀ c ∈ s.data, lowHexB c = true

instance (s : String) : Decidable (ValidTxIdHex s) := by
  unfold ValidTxIdHex; infer_instance

/-! ### Transactions as reported by the ledger gateway

`getTransaction(txid)` resolves to `{txid, vout: [{value, n,
scriptPubKey: {type, hex, addresses}}]}`.  The BSV amount arrives as a
float of coins; the agent immediately converts it with
`Math.round(vout.value * 1e8)`, and every claim lives downstream of that
conversion, so the model carries the satoshi amount directly. -/

/-- One chunk of a parsed script: push chunks carry a buffer, plain
opcodes do not (`chunk.buf` present or absent). -/
structure Chunk where
  buf : Option Bytes
deriving DecidableEq

/-- The `scriptPubKey` object of a transaction output.  `type` is a Lean
keyword, hence the field name `typ`. -/
structure ScriptPubKey where
  typ : String
  hex : String
  addresses : Option (List String)
deriving DecidableEq

/-- One output (`vout` entry) of a fetched transaction. -/
structure Vout where
  valueSats : Nat
  n : Nat
  scriptPubKey : Option ScriptPubKey
deriving DecidableEq

/-- A fetched transaction. -/
structure Tx where
  txid : String
  vout : List Vout
deriving DecidableEq

/-- A spendable output as assembled by `findOurOutputs`. -/
structure Utxo where
  txid : String
  vout : Nat
  satoshis : Nat
  script : String
deriving DecidableEq

/-- The push buffers of a script, in order (`chunk.buf` collection loop). -/
def chunkBufs (chunks : List Chunk) : List Bytes :=
  chunks.filterMap (·.buf)

/-- Whether a vout has the null-data script type (the only outputs the
JOB decoder looks at). -/
def isNullDataV (v : Vout) : Bool :=
  match v.scriptPubKey with
  | some spk => spk.typ == "nulldata"
  | none => false

/-- The vout scan of `parseJobFromTx`.  `parseScript` is the external
`Script.fromHex` capability; `none` models the exception the JS catches
and skips. -/
def parseJobFromVouts (parseScript : String → Option (List Chunk)) :
    List Vout → Option Bytes
  | [] => none
  | v :: rest =>
    match v.scriptPubKey with
    | none => parseJobFromVouts parseScript rest
    | some spk =>
      if spk.typ = "nulldata" then
        match parseScript spk.hex with
        | none => parseJobFromVouts parseScript rest
        | some chunks =>
          match chunkBufs chunks with
          | p0 :: p1 :: _ =>
            if p0 = str "JOB" then some p1 else parseJobFromVouts parseScript rest
          | _ => parseJobFromVouts parseScript rest
      else parseJobFromVouts parseScript rest

/-- `parseJobFromTx(tx)`: first `JOB` payload found in a null-data output,
`null` otherwise.  A total function: the `try/catch` around the script
parse is the `Option` in `parseScript`, and every other path returns. -/
def parseJobFromTx (parseScript : String → Option (List Chunk)) (tx : Tx) :
    Option Bytes :=
  parseJobFromVouts parseScript tx.vout

/-- `findOurOutputs(tx, address)`: the outputs of the fetched transaction
paying the agent address, as spendable-output records. -/
def findOurOutputs (tx : Tx) (address : String) : List Utxo :=
  tx.vout.filterMap fun v =>
    match v.scriptPubKey with
    | some spk =>
      match spk.addresses with
      | some addrs =>
        if address ∈ addrs then
          some ⟨tx.txid, v.n, v.valueSats, spk.hex⟩
        else none
      | none => none
    | none => none

/-- Sum of the satoshi amounts of a spendable-output list (`reduce` in
`processJob`, the accumulation loop in `buildResponseTx`). -/
def utxoSum (us : List Utxo) : Nat :=
  us.foldl (fun s u => s + u.satoshis) 0

/-! ### The settlement builder -/

/-- The flat settlement fee of the agent (`const FEE = 300`). -/
def FEE : Int := 300

/-- An output script of the built settlement: either the data-only
OP_RETURN script holding the listed pushes, or a pay-to-address script. -/
inductive OutScript where
  | data (pushes : List Bytes)
  | pay (address : String)
deriving DecidableEq

/-- One output of the built settlement transaction. -/
structure Output where
  script : OutScript
  satoshis : Int
deriving DecidableEq

/-- Sum of the output amounts of a built transaction. -/
def outSum (os : List Output) : Int :=
  (os.map (·.satoshis)).sum

/-- The size-ceiling substitution of `buildResponseTx`: payloads over
50000 bytes are replaced by `HASH:` plus the lowercase hex of their
SHA-256 (`sha256` is the external crypto capability). -/
def resPayload (sha256 : Bytes → Bytes) (resultBytes : Bytes) : Bytes :=
  if 50000 < resultBytes.length then
    str "HASH:" ++ str (hexEncode (sha256 resultBytes))
  else resultBytes

/-- What `buildResponseTx` returns: the built outputs (signing is the
external capability and leaves them unchanged) plus the `isHashed` and
`keep` values the JS hands back alongside the transaction. -/
structure BuildResult where
  pushes : List Bytes
  outputs : List Output
  isHashed : Bool
  keep : Int
deriving DecidableEq

/-- `buildResponseTx(privKey, utxos, jobTxid, resultText)`.  `resultBytes`
is `Buffer.from(resultText, 'utf8')`; `address` is the agent key's
address.  Output 0 is the OP_RETURN data output
`RES <jobTxid bytes reversed> <payload>` with amount 0; a change output
for `keep = totalIn - FEE` is appended only when `keep > 0`. -/
def buildResponseTx (sha256 : Bytes → Bytes) (utxos : List Utxo)
    (jobTxid : String) (resultBytes : Bytes) (address : String) : BuildResult :=
  let resultBuf := resPayload sha256 resultBytes
  let pushes := [str "RES", (hexDecodeString jobTxid).reverse, resultBuf]
  let totalIn : Int := (utxoSum utxos : Int)
  let keep := totalIn - FEE
  let outputs :=
    Output.mk (OutScript.data pushes) 0 ::
      (if 0 < keep then [Output.mk (OutScript.pay address) keep] else [])
  ⟨pushes, outputs, 50000 < resultBytes.length, keep⟩

/-! ### The LLM step -/

/-- The raw Ollama generate response: `response` and `thinking` fields,
each possibly absent. -/
structure OllamaResp where
  response : Option Bytes
  thinking : Option Bytes
deriving DecidableEq

/-- ASCII whitespace, for the `trim()` of `askLLM` (the payloads the agent
trims are model output; the ASCII set is the relevant one). -/
def isWsByte (b : Nat) : Bool :=
  b == 9 || b == 10 || b == 11 || b == 12 || b == 13 || b == 32

/-- `String.trim()` on a byte buffer. -/
def trimBytes (l : Bytes) : Bytes :=
  ((l.dropWhile isWsByte).reverse.dropWhile isWsByte).reverse

/-- Index of the first occurrence of `pat` in `l`, if any. -/
def findSub (pat : Bytes) : Bytes → Option Nat
  | [] => if pat = [] then some 0 else none
  | a :: rest =>
    if pat.isPrefixOf (a :: rest) then some 0
    else (findSub pat rest).map (· + 1)

/-- One global pass of `replace(/<think>[\s\S]*?<\/think>/g, '')`: each
match runs from a `<think>` to the nearest following `</think>`; an
unmatched `<think>` is left in place.  The fuel bounds the recursion and
`l.length` is always enough, since every removed match is non-empty. -/
def stripThinkF : Nat → Bytes → Bytes
  | 0, l => l
  | fuel + 1, l =>
    match findSub (str "<think>") l with
    | none => l
    | some i =>
      let after := l.drop (i + 7)
      match findSub (str "</think>") after with
      | none => l
      | some j => l.take i ++ stripThinkF fuel (after.drop (j + 8))

/-- `answer.replace(/<think>[\s\S]*?<\/think>/g, '')`. -/
def stripThink (l : Bytes) : Bytes :=
  stripThinkF l.length l

/-- `askLLM(prompt)` as a function of the resolved or rejected inference
call: a rejection is converted to the text `Error: <message>`, never
re-raised, and a resolved response goes through the answer-extraction
pipeline of the JS (`response` field, `thinking` fallback, think-tag
strip, trim, `(no response)` default). -/
def askLLM (r : Except Bytes OllamaResp) : Bytes :=
  match r with
  | .error e => str "Error: " ++ e
  | .ok resp =>
    let answer := resp.response.getD []
    let answer := if answer.isEmpty then resp.thinking.getD [] else answer
    let answer := trimBytes (stripThink answer)
    if answer.isEmpty then str "(no response)" else answer

/-! ### The job store and the job processor -/

/-- One persisted job record (`jobs.json` entry).  The success path writes
`isHashed`; the failure path omits it, hence the `Option Bool`.  The
timestamp is wall-clock output with no consumer among the claims and is
omitted. -/
structure Job where
  jobTxid : String
  resTxid : Option String
  prompt : Bytes
  result : Bytes
  satsReceived : Int
  satsKept : Int
  isHashed : Option Bool
  error : Option Bytes
deriving DecidableEq

/-- `isJobProcessed(txid)`: membership of the id among the stored records. -/
def isJobProcessed (jobs : List Job) (txid : String) : Bool :=
  jobs.any fun j => j.jobTxid == txid

/-- The external collaborators of one agent process, as the spec's opaque
capabilities.  `fetchTx` is the resolved value of the transaction lookup
(`none` for a 404 or unparsable body); `parseScript` is `Script.fromHex`
with `none` for a throw; `broadcast` is the whole sign-and-broadcast tail
(`Except.error` carries the rejection message); `llm` is the settled
`askLLM` call, total because `askLLM` catches every failure. -/
structure Env where
  fetchTx : String → Option Tx
  parseScript : String → Option (List Chunk)
  sha256 : Bytes → Bytes
  llm : Bytes → Bytes
  broadcast : BuildResult → Except Bytes String

/-- The fixed text stored in the job record in place of an oversized
result (`'(hashed — see follow-up tx)'`). -/
def hashedStoreText : Bytes :=
  str "(hashed — see follow-up tx)"

/-- `processJob(wallet, privKey, txid)`: fetch, parse, prompt check,
funds check, inference, settlement build, broadcast, and the job-store
append of either the success or the failure record.  Returns the job
store after the call.  The JS guard `if (!prompt) return` discards both
the missing-tag case (`parseJobFromTx` returned `null`, the `none`
branch) and the empty-payload case (`''` is falsy, the `isEmpty`
branch). -/
def processJob (env : Env) (address : String) (txid : String)
    (jobs : List Job) : List Job :=
  match env.fetchTx txid with
  | none => jobs
  | some tx =>
    match parseJobFromTx env.parseScript tx with
    | none => jobs
    | some promptB =>
      if promptB.isEmpty then jobs
      else
      let utxos := findOurOutputs tx address
      if utxos.isEmpty then jobs
      else
        let satsReceived : Int := (utxoSum utxos : Int)
        let result := env.llm promptB
        let br := buildResponseTx env.sha256 utxos txid result address
        match env.broadcast br with
        | .ok resTxid =>
          jobs ++ [{ jobTxid := txid, resTxid := some resTxid,
                     prompt := promptB,
                     result := if br.isHashed then hashedStoreText else result,
                     satsReceived := satsReceived, satsKept := br.keep,
                     isHashed := some br.isHashed, error := none }]
        | .error e =>
          jobs ++ [{ jobTxid := txid, resTxid := none, prompt := promptB,
                     result := result, satsReceived := satsReceived,
                     satsKept := 0, isHashed := none, error := some e }]

/-! ### The poller -/

/-- The in-memory seen set plus the job store: the state the poll loop
threads. -/
structure PollState where
  seen : List String
  jobs : List Job
deriving DecidableEq

/-- One history entry of `pollForJobs`: skip if already seen, record as
seen, skip if already in the job store, otherwise hand to the job
processor. -/
def pollStep (env : Env) (address : String) (st : PollState)
    (txid : String) : PollState :=
  if txid ∈ st.seen then st
  else
    let seen := txid :: st.seen
    if isJobProcessed st.jobs txid then ⟨seen, st.jobs⟩
    else ⟨seen, processJob env address txid st.jobs⟩

/-- `pollForJobs`: one tick over the fetched address history. -/
def pollForJobs (env : Env) (address : String) (history : List String)
    (st : PollState) : PollState :=
  history.foldl (pollStep env address) st

/-- The startup seeding of `main`: the seen set starts as the fetched
address history plus every job id already in the store. -/
def seedSeen (history : List String) (jobs : List Job) : List String :=
  history ++ jobs.map (·.jobTxid)

/-- Number of stored records keyed by a given request id. -/
def countFor (txid : String) (jobs : List Job) : Nat :=
  (jobs.filter fun j => j.jobTxid = txid).length

/-! ### The bridge correlator's decode-and-match step

`waitForResponse` scans candidate transactions; for each null-data output
it collects the push buffers and, when there are at least three and the
first is `RES`, reverses the second push, hex-encodes it and compares it
to the awaited job id, returning the third push on a match.  The script
serialize/parse round trip through the external library is the faithful
push-preserving capability of the spec, so the check is modelled directly
on the push list. -/

def resMatch (pushes : List Bytes) (jobTxid : String) : Option Bytes :=
  match pushes with
  | p0 :: p1 :: p2 :: _ =>
    if p0 = str "RES" then
      if hexEncode p1.reverse = jobTxid then some p2 else none
    else none
  | _ => none

/-! ### The web chat handler -/

/-- One conversation entry of the web front end.  The optimistic entry has
`result` and `txid` null and `pending` true; the final entry rewrites all
three. -/
structure ChatEntry where
  prompt : Bytes
  result : Option Bytes
  txid : Option String
  pending : Bool
deriving DecidableEq

/-- The catch handler's cleanup: drop the last entry when it is pending
(`if (h.length && h[h.length-1].pending) h.pop()`). -/
def popPendingIfLast (h : List ChatEntry) : List ChatEntry :=
  match h.getLast? with
  | some e => if e.pending then h.dropLast else h
  | none => h

/-- The optimistic state persisted by `POST /api/chat` before computation:
the conversation plus a pending entry. -/
def apiChatMid (history : List ChatEntry) (p : Bytes) : List ChatEntry :=
  history ++ [{ prompt := p, result := none, txid := none, pending := true }]

/-- `POST /api/chat` on one conversation: append the pending entry, run
the timed LLM race and the mandatory on-chain post, then either rewrite
the last entry with the final record or (in the catch) reload and pop the
pending entry.  `llmR` is the settled `Promise.race` (an `error` is the
timeout rejection); `postR` is the settled `postOnChain` call. -/
def apiChat (history : List ChatEntry) (p : Bytes)
    (llmR : Except Bytes Bytes) (postR : Except Bytes String) :
    List ChatEntry :=
  let mid := apiChatMid history p
  match llmR with
  | .error _ => popPendingIfLast mid
  | .ok result =>
    match postR with
    | .error _ => popPendingIfLast mid
    | .ok txid =>
      mid.set (mid.length - 1)
        { prompt := p, result := some result, txid := some txid,
          pending := false }

/-- Number of pending entries in a conversation. -/
def countPending (h : List ChatEntry) : Nat :=
  (h.filter (·.pending)).length

/-- The record the success path of `processJob` persists, as a function
of the processed id, the broadcast id, the prompt, the raw result, the
build result and the received amount. -/
def successRec (txid r : String) (p res : Bytes) (br : BuildResult)
    (sats : Nat) : Job :=
  { jobTxid := txid, resTxid := some r, prompt := p,
    result := if br.isHashed then hashedStoreText else res,
    satsReceived := (sats : Int), satsKept := br.keep,
    isHashed := some br.isHashed, error := none }

/-- The record the failure path of `processJob` persists. -/
def failureRec (txid : String) (p res e : Bytes) (sats : Nat) : Job :=
  { jobTxid := txid, resTxid := none, prompt := p, result := res,
    satsReceived := (sats : Int), satsKept := 0, isHashed := none,
    error := some e }

/-! ### Concrete fixtures

Closed instances used to evaluate the model at concrete inputs: a
well-formed `JOB` request transaction paying the agent, and environments
differing only in the payment amount, the inference output and the
broadcast outcome. -/

/-- Parsed chunks of a `JOB` data script: two plain opcodes
(OP_FALSE, OP_RETURN) and two pushes. -/
def cChunksJob : List Chunk :=
  [⟨none⟩, ⟨none⟩, ⟨some (str "JOB")⟩, ⟨some (str "hi")⟩]

/-- A script parser knowing exactly one script hex. -/
def cParse : String → Option (List Chunk) :=
  fun h => if h = "datahex" then some cChunksJob else none

/-- A request transaction: one null-data `JOB` output and one payment of
`sats` to the agent address `me`. -/
def cTxAt (sats : Nat) : Tx :=
  ⟨"t1", [⟨0, 0, some ⟨"nulldata", "datahex", none⟩⟩,
          ⟨sats, 1, some ⟨"pubkeyhash", "pay", some ["me"]⟩⟩]⟩

/-- An environment serving the transaction `t1` with payment `sats`,
inference output `llmOut` and broadcast outcome `b`. -/
def cEnv (llmOut : Bytes) (sats : Nat) (b : Except Bytes String) : Env :=
  ⟨fun id => if id = "t1" then some (cTxAt sats) else none, cParse,
   fun _ => List.replicate 32 0, fun _ => llmOut, fun _ => b⟩

/-- Happy path: 500-sat payment, small answer, broadcast accepted. -/
def cEnvOk : Env := cEnv (str "4") 500 (.ok "r1")

/-- Broadcast rejected. -/
def cEnvErr : Env := cEnv (str "4") 500 (.error (str "fee too low"))

/-- Payment of 100 sats, below the 300-sat fee. -/
def cEnv100 : Env := cEnv (str "4") 100 (.ok "r1")

/-- Oversized inference output (50001 bytes). -/
def cEnvBig : Env := cEnv (List.replicate 50001 97) 500 (.ok "r1")

/-- Inference rejection converted by `askLLM` into an error text. -/
def cEnvLLMErr : Env :=
  cEnv (askLLM (Except.error (str "timeout"))) 500 (.ok "r1")

/-- The record `cEnvErr` persists for the fixture job. -/
def cFailRec : Job :=
  failureRec "t1" (str "hi") (str "4") (str "fee too low") 500

/-! ## Helper lemmas -/

theorem hexVal_lowHex {c : Char} (h : lowHexB c = true) :
    ∃ v, hexVal c = some v ∧ v < 16 ∧ hexDigitChar v = c := by
  unfold lowHexB at h
  cases hv : hexVal c with
  | none => rw [hv] at h; simp at h
  | some v =>
    rw [hv] at h
    simp only [Bool.and_eq_true, decide_eq_true_eq, beq_iff_eq] at h
    exact ⟨v, rfl, h.1, h.2⟩

theorem byteToHex_pair {v1 v2 : Nat} (h1 : v1 < 16) (h2 : v2 < 16) :
    byteToHexChars (16 * v1 + v2) = [hexDigitChar v1, hexDigitChar v2] := by
  unfold byteToHexChars
  have e1 : (16 * v1 + v2) / 16 % 16 = v1 := by omega
  have e2 : (16 * v1 + v2) % 16 = v2 := by omega
  rw [e1, e2]

theorem hex_roundtrip_chars (l : List Char)
    (hv : ∀ c ∈ l, lowHexB c = true) (he : l.length % 2 = 0) :
    (hexDecodeChars l).flatMap byteToHexChars = l := by
  induction l using hexDecodeChars.induct with
  | case1 c1 c2 rest a b ha hb ih =>
    obtain ⟨v1, hv1, hlt1, hc1⟩ := hexVal_lowHex (hv c1 (by simp))
    obtain ⟨v2, hv2, hlt2, hc2⟩ := hexVal_lowHex (hv c2 (by simp))
    have ea : a = v1 := Option.some.inj (hb ▸ hv1)
    have eb : b = v2 := Option.some.inj (ha ▸ hv2)
    subst ea; subst eb
    simp only [hexDecodeChars, hb, ha, List.flatMap_cons]
    rw [byteToHex_pair hlt1 hlt2, hc1, hc2,
      ih (fun c hc => hv c (by simp [hc])) (by simp at he ⊢; omega)]
    rfl
  | case2 c1 c2 rest hnone =>
    obtain ⟨v1, hv1, _, _⟩ := hexVal_lowHex (hv c1 (by simp))
    obtain ⟨v2, hv2, _, _⟩ := hexVal_lowHex (hv c2 (by simp))
    exact (hnone v1 v2 hv1 hv2).elim
  | case3 t hne =>
    cases t with
    | nil => rfl
    | cons c rest =>
      cases rest with
      | nil => simp at he
      | cons c2 rest2 => exact (hne c c2 rest2 rfl).elim

theorem hexEncode_hexDecode {s : String} (h : ValidTxIdHex s) :
    hexEncode (hexDecodeString s) = s := by
  obtain ⟨hlen, hchars⟩ := h
  unfold hexEncode hexDecodeString
  have := hex_roundtrip_chars s.data hchars (by omega)
  rw [this]

theorem length_hexChars (b : Bytes) :
    (b.flatMap byteToHexChars).length = 2 * b.length := by
  induction b with
  | nil => rfl
  | cons x rest ih => simp [byteToHexChars, ih]; omega

theorem lowHexB_hexDigitChar : ∀ v, v < 16 → lowHexB (hexDigitChar v) = true := by
  decide

theorem hexEncode_lowHex (b : Bytes) :
    ∀ c ∈ (hexEncode b).data, lowHexB c = true := by
  intro c hc
  unfold hexEncode at hc
  simp only [List.mem_flatMap] at hc
  obtain ⟨x, _, hcx⟩ := hc
  simp only [byteToHexChars, List.mem_cons, List.not_mem_nil, or_false] at hcx
  rcases hcx with h | h
  · exact h ▸ lowHexB_hexDigitChar _ (Nat.mod_lt _ (by omega))
  · exact h ▸ lowHexB_hexDigitChar _ (Nat.mod_lt _ (by omega))

theorem buildResponseTx_isHashed (sha256 : Bytes → Bytes)
    (utxos : List Utxo) (jobTxid : String) (resultBytes : Bytes)
    (address : String) :
    (buildResponseTx sha256 utxos jobTxid resultBytes address).isHashed =
      decide (50000 < resultBytes.length) := rfl

theorem processJob_success_eq {env : Env} {address txid : String}
    {tx : Tx} {p : Bytes} {us : List Utxo} {br : BuildResult} {r : String}
    (jobs : List Job)
    (hf : env.fetchTx txid = some tx)
    (hp : parseJobFromTx env.parseScript tx = some p)
    (hpe : p ≠ [])
    (hus : findOurOutputs tx address = us)
    (hne : us ≠ [])
    (hbr : buildResponseTx env.sha256 us txid (env.llm p) address = br)
    (hb : env.broadcast br = .ok r) :
    processJob env address txid jobs =
      jobs ++ [{ jobTxid := txid, resTxid := some r, prompt := p,
                 result := if br.isHashed then hashedStoreText else env.llm p,
                 satsReceived := (utxoSum us : Int), satsKept := br.keep,
                 isHashed := some br.isHashed, error := none }] := by
  have hpemp : p.isEmpty = false := by
    cases p with
    | nil => exact absurd rfl hpe
    | cons a l => rfl
  have hemp : us.isEmpty = false := by
    cases us with
    | nil => exact absurd rfl hne
    | cons a l => rfl
  simp only [processJob, hf, hp, hpemp, hus, hemp, Bool.false_eq_true,
    if_false, hbr, hb]

theorem processJob_failure_eq {env : Env} {address txid : String}
    {tx : Tx} {p : Bytes} {us : List Utxo} {br : BuildResult} {e : Bytes}
    (jobs : List Job)
    (hf : env.fetchTx txid = some tx)
    (hp : parseJobFromTx env.parseScript tx = some p)
    (hpe : p ≠ [])
    (hus : findOurOutputs tx address = us)
    (hne : us ≠ [])
    (hbr : buildResponseTx env.sha256 us txid (env.llm p) address = br)
    (hb : env.broadcast br = .error e) :
    processJob env address txid jobs =
      jobs ++ [{ jobTxid := txid, resTxid := none, prompt := p,
                 result := env.llm p,
                 satsReceived := (utxoSum us : Int), satsKept := 0,
                 isHashed := none, error := some e }] := by
  have hpemp : p.isEmpty = false := by
    cases p with
    | nil => exact absurd rfl hpe
    | cons a l => rfl
  have hemp : us.isEmpty = false := by
    cases us with
    | nil => exact absurd rfl hne
    | cons a l => rfl
  simp only [processJob, hf, hp, hpemp, hus, hemp, Bool.false_eq_true,
    if_false, hbr, hb]

/-- When the fetch, the tag parse and the funds check succeed, the job
processor appends exactly one record keyed by the id, whatever the
broadcast outcome. -/
theorem processJob_appends {env : Env} {address txid : String}
    {tx : Tx} {p : Bytes} {us : List Utxo}
    (jobs : List Job)
    (hf : env.fetchTx txid = some tx)
    (hp : parseJobFromTx env.parseScript tx = some p)
    (hpe : p ≠ [])
    (hus : findOurOutputs tx address = us)
    (hne : us ≠ []) :
    ∃ rec, processJob env address txid jobs = jobs ++ [rec] ∧
      rec.jobTxid = txid ∧ rec.prompt = p ∧
      rec.satsReceived = (utxoSum us : Int) ∧
      (rec.result = env.llm p ∨ rec.result = hashedStoreText) := by
  cases hb : env.broadcast (buildResponseTx env.sha256 us txid (env.llm p) address) with
  | ok r =>
    refine ⟨_, processJob_success_eq jobs hf hp hpe hus hne rfl hb, rfl,
      rfl, rfl, ?_⟩
    by_cases hh : (buildResponseTx env.sha256 us txid (env.llm p) address).isHashed
    · simp [hh]
    · simp [hh]
  | error e =>
    exact ⟨_, processJob_failure_eq jobs hf hp hpe hus hne rfl hb, rfl,
      rfl, rfl, Or.inl rfl⟩

/-- Every call of the job processor either leaves the store unchanged
(one of the discard paths) or appends exactly one record keyed by the
processed id. -/
theorem processJob_shape (env : Env) (address txid : String)
    (jobs : List Job) :
    processJob env address txid jobs = jobs ∨
      ∃ rec, processJob env address txid jobs = jobs ++ [rec] ∧
        rec.jobTxid = txid := by
  cases hf : env.fetchTx txid with
  | none => exact Or.inl (by simp only [processJob, hf])
  | some tx =>
    cases hp : parseJobFromTx env.parseScript tx with
    | none => exact Or.inl (by simp only [processJob, hf, hp])
    | some p =>
      by_cases hpe : p = []
      · exact Or.inl (by simp only [processJob, hf, hp, hpe,
          List.isEmpty_nil, if_true])
      · have hpemp : p.isEmpty = false := by
          cases p with
          | nil => exact absurd rfl hpe
          | cons a l => rfl
        by_cases hne : findOurOutputs tx address = []
        · exact Or.inl (by simp only [processJob, hf, hp, hpemp,
            Bool.false_eq_true, if_false, hne, List.isEmpty_nil, if_true])
        · obtain ⟨rec, heq, hkey, _⟩ :=
            processJob_appends jobs hf hp hpe rfl hne
          exact Or.inr ⟨rec, heq, hkey⟩

/-- Full case analysis of one job-processor call: either a discard path
left the store alone, or the record appended is exactly the success or
the failure record of the source. -/
theorem processJob_cases (env : Env) (address txid : String)
    (jobs : List Job) :
    processJob env address txid jobs = jobs ∨
    ∃ tx p, env.fetchTx txid = some tx ∧
      parseJobFromTx env.parseScript tx = some p ∧ p ≠ [] ∧
      findOurOutputs tx address ≠ [] ∧
      ((∃ r, env.broadcast (buildResponseTx env.sha256
          (findOurOutputs tx address) txid (env.llm p) address) = .ok r ∧
        processJob env address txid jobs =
          jobs ++ [successRec txid r p (env.llm p)
            (buildResponseTx env.sha256 (findOurOutputs tx address) txid
              (env.llm p) address)
            (utxoSum (findOurOutputs tx address))]) ∨
       (∃ e, env.broadcast (buildResponseTx env.sha256
          (findOurOutputs tx address) txid (env.llm p) address) = .error e ∧
        processJob env address txid jobs =
          jobs ++ [failureRec txid p (env.llm p) e
            (utxoSum (findOurOutputs tx address))])) := by
  cases hf : env.fetchTx txid with
  | none => exact Or.inl (by simp only [processJob, hf])
  | some tx =>
    cases hp : parseJobFromTx env.parseScript tx with
    | none => exact Or.inl (by simp only [processJob, hf, hp])
    | some p =>
      by_cases hpe : p = []
      · exact Or.inl (by simp only [processJob, hf, hp, hpe,
          List.isEmpty_nil, if_true])
      · have hpemp : p.isEmpty = false := by
          cases p with
          | nil => exact absurd rfl hpe
          | cons a l => rfl
        by_cases hne : findOurOutputs tx address = []
        · exact Or.inl (by simp only [processJob, hf, hp, hpemp,
            Bool.false_eq_true, if_false, hne, List.isEmpty_nil, if_true])
        · refine Or.inr ⟨tx, p, rfl, hp, hpe, hne, ?_⟩
          cases hb : env.broadcast (buildResponseTx env.sha256
              (findOurOutputs tx address) txid (env.llm p) address) with
          | ok r =>
            exact Or.inl ⟨r, rfl,
              processJob_success_eq jobs hf hp hpe rfl hne rfl hb⟩
          | error e =>
            exact Or.inr ⟨e, rfl,
              processJob_failure_eq jobs hf hp hpe rfl hne rfl hb⟩

theorem pollStep_seen_mem {env : Env} {address : String} {st : PollState}
    {t' : String} (h : t' ∈ st.seen) :
    pollStep env address st t' = st := by
  simp only [pollStep, if_pos h]

theorem pollStep_eq_processed {env : Env} {address : String}
    {st : PollState} {t' : String} (h1 : t' ∉ st.seen)
    (h2 : isJobProcessed st.jobs t' = true) :
    pollStep env address st t' = ⟨t' :: st.seen, st.jobs⟩ := by
  simp only [pollStep, if_neg h1, h2, if_true]

theorem pollStep_eq_new {env : Env} {address : String}
    {st : PollState} {t' : String} (h1 : t' ∉ st.seen)
    (h2 : isJobProcessed st.jobs t' = false) :
    pollStep env address st t' =
      ⟨t' :: st.seen, processJob env address t' st.jobs⟩ := by
  simp only [pollStep, if_neg h1, h2, Bool.false_eq_true, if_false]

theorem countFor_append (txid : String) (jobs : List Job) (rec : Job) :
    countFor txid (jobs ++ [rec]) =
      countFor txid jobs + if rec.jobTxid = txid then 1 else 0 := by
  unfold countFor
  rw [List.filter_append]
  by_cases h : rec.jobTxid = txid <;> simp [h]

theorem isJobProcessed_append {jobs : List Job} {txid : String}
    (h : isJobProcessed jobs txid = true) (l : List Job) :
    isJobProcessed (jobs ++ l) txid = true := by
  unfold isJobProcessed at h ⊢
  simp only [List.any_append, Bool.or_eq_true]
  exact Or.inl h

theorem isJobProcessed_iff {jobs : List Job} {txid : String} :
    isJobProcessed jobs txid = true ↔ ∃ j ∈ jobs, j.jobTxid = txid := by
  unfold isJobProcessed
  simp

/-- The preservation invariant of the poll loop: once an id is in the
seen set or in the job store, one poll step (on any observed id) keeps it
there and leaves its stored records untouched. -/
theorem pollStep_preserve {env : Env} {address : String} {st : PollState}
    {t : String} (t' : String)
    (h : t ∈ st.seen ∨ isJobProcessed st.jobs t = true) :
    countFor t (pollStep env address st t').jobs = countFor t st.jobs ∧
      (t ∈ (pollStep env address st t').seen ∨
        isJobProcessed (pollStep env address st t').jobs t = true) := by
  by_cases hseen : t' ∈ st.seen
  · rw [pollStep_seen_mem hseen]
    exact ⟨rfl, h⟩
  · cases hproc : isJobProcessed st.jobs t' with
    | true =>
      rw [pollStep_eq_processed hseen hproc]
      refine ⟨rfl, ?_⟩
      rcases h with h | h
      · exact Or.inl (List.mem_cons_of_mem _ h)
      · exact Or.inr h
    | false =>
      rw [pollStep_eq_new hseen hproc]
      by_cases htt : t' = t
      · subst htt
        rcases h with h | h
        · exact absurd h hseen
        · exact absurd h (by simp [hproc])
      · rcases processJob_shape env address t' st.jobs with heq | ⟨rec, heq, hkey⟩
        · rw [heq]
          refine ⟨rfl, ?_⟩
          rcases h with h | h
          · exact Or.inl (List.mem_cons_of_mem _ h)
          · exact Or.inr h
        · rw [heq, countFor_append]
          have hk : ¬rec.jobTxid = t := by rw [hkey]; exact htt
          refine ⟨by simp [hk], ?_⟩
          rcases h with h | h
          · exact Or.inl (List.mem_cons_of_mem _ h)
          · exact Or.inr (isJobProcessed_append h _)

/-- The preservation invariant extended over a whole poll tick. -/
theorem pollForJobs_preserve {env : Env} {address : String} {t : String}
    (history : List String) (st : PollState)
    (h : t ∈ st.seen ∨ isJobProcessed st.jobs t = true) :
    countFor t (pollForJobs env address history st).jobs =
        countFor t st.jobs ∧
      (t ∈ (pollForJobs env address history st).seen ∨
        isJobProcessed (pollForJobs env address history st).jobs t = true) := by
  induction history generalizing st with
  | nil => exact ⟨rfl, h⟩
  | cons t' rest ih =>
    obtain ⟨hc, hm⟩ := @pollStep_preserve env address st t t' h
    obtain ⟨hc2, hm2⟩ := ih (pollStep env address st t') hm
    exact ⟨by rw [← hc, ← hc2]; rfl, hm2⟩

/-! ## Claims -/

/-- C1: for every call of the settlement builder with a UTXO list summing
to `totalIn` and the fixed fee `FEE`: `keep` is exactly `totalIn - FEE`; a
change output of exactly that amount is appended precisely when it is
positive and no change output is added otherwise; when the change output
exists the output amounts plus the fee add back up to `totalIn`; in every
case the output sum is at most `totalIn` and no output amount is
negative; and the data-carrying output sits at position 0. -/
theorem settlement_fee_conservation (sha256 : Bytes → Bytes)
    (utxos : List Utxo) (jobTxid : String) (resultBytes : Bytes)
    (address : String) :
    (buildResponseTx sha256 utxos jobTxid resultBytes address).keep =
        (utxoSum utxos : Int) - FEE ∧
    (buildResponseTx sha256 utxos jobTxid resultBytes address).outputs =
        Output.mk (OutScript.data
            (buildResponseTx sha256 utxos jobTxid resultBytes address).pushes)
            0 ::
          (if 0 < (utxoSum utxos : Int) - FEE then
            [Output.mk (OutScript.pay address) ((utxoSum utxos : Int) - FEE)]
          else []) ∧
    (0 < (utxoSum utxos : Int) - FEE →
      outSum (buildResponseTx sha256 utxos jobTxid resultBytes
          address).outputs + FEE = (utxoSum utxos : Int)) ∧
    outSum (buildResponseTx sha256 utxos jobTxid resultBytes
        address).outputs ≤ (utxoSum utxos : Int) ∧
    (∀ o ∈ (buildResponseTx sha256 utxos jobTxid resultBytes
        address).outputs, 0 ≤ o.satoshis) ∧
    (buildResponseTx sha256 utxos jobTxid resultBytes
        address).outputs.head? =
      some (Output.mk (OutScript.data
        (buildResponseTx sha256 utxos jobTxid resultBytes address).pushes)
        0) := by
  refine ⟨rfl, rfl, ?_, ?_, ?_, rfl⟩
  · intro hk
    show outSum (Output.mk (OutScript.data _) 0 ::
      (if 0 < (utxoSum utxos : Int) - FEE then
        [Output.mk (OutScript.pay address) ((utxoSum utxos : Int) - FEE)]
      else [])) + FEE = (utxoSum utxos : Int)
    rw [if_pos hk]
    simp only [outSum, List.map_cons, List.map_nil, List.sum_cons,
      List.sum_nil, FEE]
    omega
  · show outSum (Output.mk (OutScript.data _) 0 ::
      (if 0 < (utxoSum utxos : Int) - FEE then
        [Output.mk (OutScript.pay address) ((utxoSum utxos : Int) - FEE)]
      else [])) ≤ (utxoSum utxos : Int)
    by_cases hk : 0 < (utxoSum utxos : Int) - FEE
    · rw [if_pos hk]
      simp only [outSum, List.map_cons, List.map_nil, List.sum_cons,
        List.sum_nil, FEE]
      omega
    · rw [if_neg hk]
      simp only [outSum, List.map_cons, List.map_nil, List.sum_cons,
        List.sum_nil]
      omega
  · intro o ho
    rw [show (buildResponseTx sha256 utxos jobTxid resultBytes
        address).outputs = Output.mk (OutScript.data
          (buildResponseTx sha256 utxos jobTxid resultBytes address).pushes)
          0 ::
        (if 0 < (utxoSum utxos : Int) - FEE then
          [Output.mk (OutScript.pay address) ((utxoSum utxos : Int) - FEE)]
        else []) from rfl] at ho
    by_cases hk : 0 < (utxoSum utxos : Int) - FEE
    · rw [if_pos hk] at ho
      simp only [List.mem_cons, List.not_mem_nil, or_false] at ho
      rcases ho with h | h
      · subst h; simp
      · subst h; simp; omega
    · rw [if_neg hk] at ho
      simp only [List.mem_cons, List.not_mem_nil, or_false] at ho
      subst ho
      simp

/-- Witness for C1 at one concrete input: one 500-sat input, fee 300,
change 200, fee conservation holds. -/
theorem settlement_fee_conservation_witness :
    0 < (utxoSum [⟨"a", 0, 500, "s"⟩] : Int) - FEE ∧
    outSum (buildResponseTx (fun _ => []) [⟨"a", 0, 500, "s"⟩] "ab" [104]
        "me").outputs + FEE = (utxoSum [⟨"a", 0, 500, "s"⟩] : Int) :=
  ⟨by decide,
    (settlement_fee_conservation (fun _ => []) [⟨"a", 0, 500, "s"⟩] "ab"
      [104] "me").2.2.1 (by decide)⟩

/-- C8: the settlement data output stores the request id bytes reversed;
re-reversing and hex-encoding the first field after the tag recovers the
original 64-character lowercase-hex id exactly, and the bridge
correlator's comparison of the decoded back-reference against an awaited
job id succeeds precisely when the two ids are equal. -/
theorem res_backref_roundtrip (sha256 : Bytes → Bytes) (utxos : List Utxo)
    (s : String) (resultBytes : Bytes) (address : String) (t : String)
    (hs : ValidTxIdHex s) :
    (buildResponseTx sha256 utxos s resultBytes address).pushes =
      [str "RES", (hexDecodeString s).reverse,
        resPayload sha256 resultBytes] ∧
    hexEncode ((hexDecodeString s).reverse.reverse) = s ∧
    resMatch (buildResponseTx sha256 utxos s resultBytes address).pushes t =
      (if t = s then some (resPayload sha256 resultBytes) else none) := by
  have hrt : hexEncode ((hexDecodeString s).reverse.reverse) = s := by
    rw [List.reverse_reverse]
    exact hexEncode_hexDecode hs
  refine ⟨rfl, hrt, ?_⟩
  show resMatch [str "RES", (hexDecodeString s).reverse,
    resPayload sha256 resultBytes] t = _
  show (if str "RES" = str "RES" then
      if hexEncode ((hexDecodeString s).reverse).reverse = t then
        some (resPayload sha256 resultBytes)
      else none
    else none) = _
  rw [if_pos rfl, hrt]
  by_cases h : t = s
  · subst h
    simp
  · rw [if_neg h, if_neg (show ¬s = t from fun hh => h hh.symm)]

theorem isJobProcessed_false_of_countFor_zero {jobs : List Job}
    {t : String} (h : countFor t jobs = 0) :
    isJobProcessed jobs t = false := by
  rw [Bool.eq_false_iff]
  intro hproc
  obtain ⟨j, hj, hje⟩ := isJobProcessed_iff.mp hproc
  have : j ∈ jobs.filter fun j => j.jobTxid = t :=
    List.mem_filter.mpr ⟨hj, by simp [hje]⟩
  unfold countFor at h
  rw [List.length_eq_zero.mp h] at this
  exact List.not_mem_nil j this

/-- C3: an observed request id that reaches processing is handled exactly
once: the poll step first consults the seen set and the job store, a
processed valid job (fetched, carrying a `JOB` tag with a non-empty
prompt, paying the agent) leaves exactly one record keyed by the id, and
a second invocation of the poll step on the same id is a no-op. -/
theorem poll_idempotency {env : Env} {address : String} {st : PollState}
    {t : String} {tx : Tx} {p : Bytes}
    (h1 : t ∉ st.seen) (h2 : countFor t st.jobs = 0)
    (hf : env.fetchTx t = some tx)
    (hp : parseJobFromTx env.parseScript tx = some p)
    (hpe : p ≠ [])
    (hne : findOurOutputs tx address ≠ []) :
    countFor t (pollStep env address st t).jobs = 1 ∧
    pollStep env address (pollStep env address st t) t =
      pollStep env address st t ∧
    (∀ st2 : PollState, t ∈ st2.seen → pollStep env address st2 t = st2) ∧
    (∀ st2 : PollState, isJobProcessed st2.jobs t = true →
      (pollStep env address st2 t).jobs = st2.jobs) := by
  have hproc := isJobProcessed_false_of_countFor_zero h2
  have hnew := @pollStep_eq_new env address st t h1 hproc
  obtain ⟨rec, heq, hkey, -⟩ := processJob_appends st.jobs hf hp hpe rfl hne
  refine ⟨?_, ?_, ?_, ?_⟩
  · rw [hnew]
    show countFor t (processJob env address t st.jobs) = 1
    rw [heq, countFor_append, if_pos hkey, h2]
  · rw [hnew]
    exact pollStep_seen_mem (List.mem_cons_self t st.seen)
  · exact fun st2 hmem => pollStep_seen_mem hmem
  · intro st2 hmem
    by_cases hseen : t ∈ st2.seen
    · rw [pollStep_seen_mem hseen]
    · rw [pollStep_eq_processed hseen hmem]

/-- Witness for C3: the fixture job is processed once from an empty
state, leaving one record, and a repeated poll step is a no-op. -/
theorem poll_idempotency_witness :
    countFor "t1" (pollStep cEnvOk "me" ⟨[], []⟩ "t1").jobs = 1 ∧
    pollStep cEnvOk "me" (pollStep cEnvOk "me" ⟨[], []⟩ "t1") "t1" =
      pollStep cEnvOk "me" ⟨[], []⟩ "t1" :=
  ⟨(@poll_idempotency cEnvOk "me" ⟨[], []⟩ "t1" (cTxAt 500)
      (str "hi") (by simp) rfl (by decide) (by decide) (by decide)
      (by decide)).1,
   (@poll_idempotency cEnvOk "me" ⟨[], []⟩ "t1" (cTxAt 500)
      (str "hi") (by simp) rfl (by decide) (by decide) (by decide)
      (by decide)).2.1⟩

/-- C4: when the broadcast of a settlement (for a job that reached the
settlement stage: non-empty prompt, funds present) raises, the processor
writes a record with the error set and a null response id; the id is
thereby in the job store, and no later poll tick ever changes its records
again (no retry, no reprocessing). -/
theorem broadcast_failure_terminal {env : Env} {address t : String}
    {tx : Tx} {p : Bytes} {us : List Utxo} {br : BuildResult} {e : Bytes}
    (jobs : List Job)
    (hf : env.fetchTx t = some tx)
    (hp : parseJobFromTx env.parseScript tx = some p)
    (hpe : p ≠ [])
    (hus : findOurOutputs tx address = us) (hne : us ≠ [])
    (hbr : buildResponseTx env.sha256 us t (env.llm p) address = br)
    (hb : env.broadcast br = .error e) :
    ∃ rec, processJob env address t jobs = jobs ++ [rec] ∧
      rec.error = some e ∧ rec.resTxid = none ∧ rec.jobTxid = t ∧
      isJobProcessed (processJob env address t jobs) t = true ∧
      ∀ (history : List String) (st : PollState),
        isJobProcessed st.jobs t = true →
        countFor t (pollForJobs env address history st).jobs =
          countFor t st.jobs := by
  have heq := processJob_failure_eq jobs hf hp hpe hus hne hbr hb
  refine ⟨_, heq, rfl, rfl, rfl, ?_, ?_⟩
  · rw [heq]
    exact isJobProcessed_iff.mpr
      ⟨_, List.mem_append_right _ (List.mem_singleton_self _), rfl⟩
  · exact fun history st hmem =>
      (pollForJobs_preserve history st (Or.inr hmem)).1

/-- Witness for C4: a rejected broadcast in the fixture environment
leaves one failure record and marks the id processed. -/
theorem broadcast_failure_terminal_witness :
    ∃ rec, processJob cEnvErr "me" "t1" [] = [] ++ [rec] ∧
      rec.error = some (str "fee too low") ∧ rec.resTxid = none ∧
      rec.jobTxid = "t1" ∧
      isJobProcessed (processJob cEnvErr "me" "t1" []) "t1" = true ∧
      ∀ (history : List String) (st : PollState),
        isJobProcessed st.jobs "t1" = true →
        countFor "t1" (pollForJobs cEnvErr "me" history st).jobs =
          countFor "t1" st.jobs :=
  @broadcast_failure_terminal cEnvErr "me" "t1" (cTxAt 500) (str "hi")
    (findOurOutputs (cTxAt 500) "me")
    (buildResponseTx cEnvErr.sha256 (findOurOutputs (cTxAt 500) "me")
      "t1" (cEnvErr.llm (str "hi")) "me") (str "fee too low") []
    rfl (by decide) (by decide) rfl (by decide) rfl rfl

/-- Witness for C8 at a concrete 64-character lowercase-hex id. -/
theorem res_backref_roundtrip_witness :
    ValidTxIdHex
      "00000000000000000000000000000000000000000000000000000000000000ff" ∧
    hexEncode ((hexDecodeString
      "00000000000000000000000000000000000000000000000000000000000000ff").reverse.reverse) =
      "00000000000000000000000000000000000000000000000000000000000000ff" :=
  ⟨by decide,
    (res_backref_roundtrip (fun _ => []) [] _ [104] "me" "t"
      (by decide)).2.1⟩

/-- C2 (amended): every record the job processor persists has a
non-negative `satsReceived`; `satsKept` is 0 on the failure path and
`satsReceived - FEE` on the success path, hence non-negative whenever the
request paid at least the fee — but negative on the success path when the
request paid less than the fee. -/
theorem job_amount_invariants (env : Env) (address t : String)
    (jobs : List Job) :
    ∀ j ∈ processJob env address t jobs, j ∈ jobs ∨
      (0 ≤ j.satsReceived ∧
       (j.error ≠ none → j.satsKept = 0) ∧
       (j.error = none → j.satsKept = j.satsReceived - FEE) ∧
       (j.error = none → FEE ≤ j.satsReceived → 0 ≤ j.satsKept)) := by
  intro j hj
  rcases processJob_cases env address t jobs with heq |
    ⟨tx, p, hf, hp, hpe, hne, hcase⟩
  · rw [heq] at hj
    exact Or.inl hj
  · rcases hcase with ⟨r, hb, heq⟩ | ⟨e, hb, heq⟩
    · rw [heq] at hj
      rcases List.mem_append.mp hj with h | h
      · exact Or.inl h
      · rw [List.mem_singleton] at h
        subst h
        refine Or.inr ⟨Int.natCast_nonneg _, ?_, ?_, ?_⟩
        · intro hcontra
          exact (hcontra rfl).elim
        · intro _
          rfl
        · intro _ hge
          have hk : (successRec t r p (env.llm p)
              (buildResponseTx env.sha256 (findOurOutputs tx address) t
                (env.llm p) address)
              (utxoSum (findOurOutputs tx address))).satsKept =
            (utxoSum (findOurOutputs tx address) : Int) - FEE := rfl
          rw [hk]
          have := hge
          simp only [successRec] at this
          omega
    · rw [heq] at hj
      rcases List.mem_append.mp hj with h | h
      · exact Or.inl h
      · rw [List.mem_singleton] at h
        subst h
        refine Or.inr ⟨Int.natCast_nonneg _, fun _ => rfl, ?_, ?_⟩
        · intro hcontra
          exact absurd hcontra (by simp [failureRec])
        · intro hcontra
          exact absurd hcontra (by simp [failureRec])

/-- Counterexample to C2: with a 100-sat payment (below the 300-sat fee)
and an accepted broadcast, the persisted success record carries
`satsKept = -200`, a negative amount. -/
theorem job_amount_counterexample :
    (processJob cEnv100 "me" "t1" []).map (fun j => j.satsKept) =
      [(-200 : Int)] ∧
    (processJob cEnv100 "me" "t1" []).map (fun j => j.error) = [none] ∧
    (-200 : Int) < 0 := by
  refine ⟨by decide, by decide, by decide⟩

/-- Witness for the amended C2 at the fixture failure record: it is
persisted with `satsReceived = 500 ≥ 0` and `satsKept = 0`. -/
theorem job_amount_invariants_witness :
    cFailRec ∈ processJob cEnvErr "me" "t1" [] ∧
    (cFailRec ∈ ([] : List Job) ∨
      (0 ≤ cFailRec.satsReceived ∧
       (cFailRec.error ≠ none → cFailRec.satsKept = 0) ∧
       (cFailRec.error = none →
         cFailRec.satsKept = cFailRec.satsReceived - FEE) ∧
       (cFailRec.error = none → FEE ≤ cFailRec.satsReceived →
         0 ≤ cFailRec.satsKept))) :=
  ⟨by decide, job_amount_invariants cEnvErr "me" "t1" [] cFailRec (by decide)⟩

/-- C6 (amended): the seen set is seeded at startup from both the ledger
history and the job store, and consequently no id present at startup —
whether recorded in the job store or merely present in the history — is
ever processed after the restart: its stored records never change.  In
particular a history id missing from the store is skipped, not
re-evaluated. -/
theorem startup_seeding_blocks_reprocessing {t : String}
    {history0 : List String} {jobs0 : List Job}
    (h : t ∈ history0 ∨ ∃ j ∈ jobs0, j.jobTxid = t) :
    t ∈ seedSeen history0 jobs0 ∧
    ∀ (env : Env) (address : String) (history : List String),
      countFor t (pollForJobs env address history
        ⟨seedSeen history0 jobs0, jobs0⟩).jobs = countFor t jobs0 := by
  have hmem : t ∈ seedSeen history0 jobs0 := by
    unfold seedSeen
    rcases h with h | ⟨j, hj, hje⟩
    · exact List.mem_append_left _ h
    · exact List.mem_append_right _ (List.mem_map.mpr ⟨j, hj, hje⟩)
  exact ⟨hmem, fun env address history =>
    (pollForJobs_preserve history _ (Or.inl hmem)).1⟩

/-- Witness for the amended C6: the fixture id seeded from history alone
is left untouched by a full poll tick. -/
theorem startup_seeding_blocks_reprocessing_witness :
    "t1" ∈ seedSeen ["t1"] [] ∧
    countFor "t1" (pollForJobs cEnvOk "me" ["t1"]
      ⟨seedSeen ["t1"] [], []⟩).jobs = countFor "t1" [] :=
  ⟨(startup_seeding_blocks_reprocessing
      (Or.inl (List.mem_singleton_self "t1"))).1,
   (startup_seeding_blocks_reprocessing
      (Or.inl (List.mem_singleton_self "t1"))).2 cEnvOk "me" ["t1"]⟩

/-- Counterexample to C6: a valid, fully processable job id present in
the startup ledger history but absent from the job store is not
re-evaluated after the restart — the poll tick leaves the store empty —
even though processing the id would have appended a record. -/
theorem startup_seeding_counterexample :
    (pollForJobs cEnvOk "me" ["t1"] ⟨seedSeen ["t1"] [], []⟩).jobs = [] ∧
    processJob cEnvOk "me" "t1" [] ≠ [] := by
  exact ⟨by decide, by decide⟩

/-- C5 (amended): for a job that reaches settlement (non-empty prompt,
funds present, broadcast accepted), a result payload over 50000 bytes is
carried on-ledger as `HASH:` followed by the 64 lowercase-hex characters
of its SHA-256, and the success record is flagged hashed — but its stored
`result` is the fixed placeholder text, not the full result; payloads of
at most 50000 bytes are carried verbatim and flagged unhashed, with the
result stored as computed. -/
theorem oversize_hash_policy {env : Env} {address t : String} {tx : Tx}
    {p : Bytes} {us : List Utxo} {r : String}
    (jobs : List Job)
    (hf : env.fetchTx t = some tx)
    (hp : parseJobFromTx env.parseScript tx = some p)
    (hpe : p ≠ [])
    (hus : findOurOutputs tx address = us) (hne : us ≠ [])
    (hb : env.broadcast (buildResponseTx env.sha256 us t (env.llm p)
      address) = .ok r)
    (h32 : (env.sha256 (env.llm p)).length = 32) :
    (50000 < (env.llm p).length →
      (buildResponseTx env.sha256 us t (env.llm p) address).pushes =
        [str "RES", (hexDecodeString t).reverse,
          str "HASH:" ++ str (hexEncode (env.sha256 (env.llm p)))] ∧
      (hexEncode (env.sha256 (env.llm p))).data.length = 64 ∧
      (∀ c ∈ (hexEncode (env.sha256 (env.llm p))).data,
        lowHexB c = true) ∧
      (buildResponseTx env.sha256 us t (env.llm p) address).isHashed =
        true ∧
      processJob env address t jobs = jobs ++
        [{ jobTxid := t, resTxid := some r, prompt := p,
           result := hashedStoreText,
           satsReceived := (utxoSum us : Int),
           satsKept := (utxoSum us : Int) - FEE,
           isHashed := some true, error := none }]) ∧
    ((env.llm p).length ≤ 50000 →
      (buildResponseTx env.sha256 us t (env.llm p) address).pushes =
        [str "RES", (hexDecodeString t).reverse, env.llm p] ∧
      (buildResponseTx env.sha256 us t (env.llm p) address).isHashed =
        false ∧
      processJob env address t jobs = jobs ++
        [{ jobTxid := t, resTxid := some r, prompt := p,
           result := env.llm p,
           satsReceived := (utxoSum us : Int),
           satsKept := (utxoSum us : Int) - FEE,
           isHashed := some false, error := none }]) := by
  have heq := processJob_success_eq jobs hf hp hpe hus hne rfl hb
  constructor
  · intro hlen
    have hhash : (buildResponseTx env.sha256 us t (env.llm p)
        address).isHashed = true := decide_eq_true hlen
    refine ⟨?_, ?_, hexEncode_lowHex _, hhash, ?_⟩
    · show [str "RES", (hexDecodeString t).reverse,
        resPayload env.sha256 (env.llm p)] = _
      rw [resPayload, if_pos hlen]
    · show ((env.sha256 (env.llm p)).flatMap byteToHexChars).length = 64
      rw [length_hexChars, h32]
    · rw [heq, hhash]
      simp only [eq_self_iff_true, if_true]
      rfl
  · intro hlen
    have hhash : (buildResponseTx env.sha256 us t (env.llm p)
        address).isHashed = false :=
      decide_eq_false (not_lt.mpr hlen)
    refine ⟨?_, hhash, ?_⟩
    · show [str "RES", (hexDecodeString t).reverse,
        resPayload env.sha256 (env.llm p)] = _
      rw [resPayload, if_neg (not_lt.mpr hlen)]
    · rw [heq, hhash]
      simp only [Bool.false_eq_true, if_false]
      rfl

/-- Witness for the amended C5: the 50001-byte fixture result is hashed
on-ledger and the record is flagged hashed. -/
theorem oversize_hash_policy_witness :
    50000 < (cEnvBig.llm (str "hi")).length ∧
    (buildResponseTx cEnvBig.sha256 (findOurOutputs (cTxAt 500) "me")
      "t1" (cEnvBig.llm (str "hi")) "me").isHashed = true :=
  ⟨by show 50000 < (List.replicate 50001 97).length
      rw [List.length_replicate]
      norm_num,
   ((@oversize_hash_policy cEnvBig "me" "t1" (cTxAt 500) (str "hi")
        (findOurOutputs (cTxAt 500) "me") "r1" []
        rfl (by decide) (by decide) rfl (by decide) rfl (by decide)).1
      (by show 50000 < (List.replicate 50001 97).length
          rw [List.length_replicate]
          norm_num)).2.2.2.1⟩

/-- Counterexample to C5: with the 50001-byte fixture result the stored
record's `result` is the fixed placeholder text, not the full (unhashed)
result — the claim that the full text is retained in the job store
fails. -/
theorem oversize_retention_counterexample :
    (processJob cEnvBig "me" "t1" []).map (fun j => j.result) =
      [hashedStoreText] ∧
    (processJob cEnvBig "me" "t1" []).map (fun j => j.isHashed) =
      [some true] ∧
    hashedStoreText ≠ cEnvBig.llm (str "hi") := by
  have hlen : 50000 < (cEnvBig.llm (str "hi")).length := by
    show 50000 < (List.replicate 50001 97).length
    rw [List.length_replicate]
    norm_num
  have hhash : (buildResponseTx cEnvBig.sha256
      (findOurOutputs (cTxAt 500) "me") "t1" (cEnvBig.llm (str "hi"))
      "me").isHashed = true := by
    rw [buildResponseTx_isHashed]
    exact decide_eq_true hlen
  have heq := @processJob_success_eq cEnvBig "me" "t1" (cTxAt 500)
    (str "hi") (findOurOutputs (cTxAt 500) "me")
    (buildResponseTx cEnvBig.sha256 (findOurOutputs (cTxAt 500) "me")
      "t1" (cEnvBig.llm (str "hi")) "me") "r1" []
    rfl (by decide) (by decide) rfl (by decide) rfl rfl
  refine ⟨?_, ?_, ?_⟩
  · rw [heq]
    simp [hhash]
  · rw [heq]
    simp [hhash]
  · intro h
    have h2 := congrArg List.length h
    rw [show cEnvBig.llm (str "hi") = List.replicate 50001 97 from rfl,
      List.length_replicate] at h2
    exact absurd h2 (by decide)

/-- C7: a failed or timed-out inference call is converted by `askLLM`
into the text `Error: <message>` rather than a raised exception, and for
a job that reached the inference stage (non-empty prompt, funds present)
the processor still builds the settlement carrying that error text and
hands it to broadcast, appending a record either way — the inference step
never aborts the job state machine. -/
theorem llm_failure_degraded {env : Env} {address t : String} {tx : Tx}
    {p e : Bytes} {us : List Utxo}
    (jobs : List Job)
    (hf : env.fetchTx t = some tx)
    (hp : parseJobFromTx env.parseScript tx = some p)
    (hpe : p ≠ [])
    (hus : findOurOutputs tx address = us) (hne : us ≠ [])
    (hllm : env.llm p = askLLM (Except.error e))
    (hsize : (str "Error: " ++ e).length ≤ 50000) :
    askLLM (Except.error e) = str "Error: " ++ e ∧
    (buildResponseTx env.sha256 us t (env.llm p) address).pushes =
      [str "RES", (hexDecodeString t).reverse, str "Error: " ++ e] ∧
    ∃ rec, processJob env address t jobs = jobs ++ [rec] ∧
      rec.jobTxid = t ∧ rec.result = str "Error: " ++ e := by
  have hask : askLLM (Except.error e) = str "Error: " ++ e := rfl
  have hres : env.llm p = str "Error: " ++ e := by rw [hllm, hask]
  refine ⟨hask, ?_, ?_⟩
  · show [str "RES", (hexDecodeString t).reverse,
      resPayload env.sha256 (env.llm p)] = _
    rw [resPayload, hres, if_neg (not_lt.mpr hsize)]
  · cases hb : env.broadcast (buildResponseTx env.sha256 us t
        (env.llm p) address) with
    | ok r =>
      have hhash : (buildResponseTx env.sha256 us t (env.llm p)
          address).isHashed = false :=
        decide_eq_false (by rw [hres]; exact not_lt.mpr hsize)
      refine ⟨_, processJob_success_eq jobs hf hp hpe hus hne rfl hb,
        rfl, ?_⟩
      show (if (buildResponseTx env.sha256 us t (env.llm p)
          address).isHashed then hashedStoreText else env.llm p) = _
      rw [hhash]
      simp only [Bool.false_eq_true, if_false]
      exact hres
    | error e2 =>
      exact ⟨_, processJob_failure_eq jobs hf hp hpe hus hne rfl hb,
        rfl, hres⟩

/-- Witness for C7: a timed-out fixture inference still settles, with the
record carrying the `Error: timeout` text. -/
theorem llm_failure_degraded_witness :
    cEnvLLMErr.llm (str "hi") = askLLM (Except.error (str "timeout")) ∧
    ∃ rec, processJob cEnvLLMErr "me" "t1" [] = [] ++ [rec] ∧
      rec.jobTxid = "t1" ∧ rec.result = str "Error: " ++ str "timeout" :=
  ⟨rfl,
   (@llm_failure_degraded cEnvLLMErr "me" "t1" (cTxAt 500) (str "hi")
      (str "timeout") (findOurOutputs (cTxAt 500) "me") []
      rfl (by decide) (by decide) rfl (by decide) rfl (by decide)).2.2⟩

theorem popPendingIfLast_concat (h : List ChatEntry) (x : ChatEntry) :
    popPendingIfLast (h ++ [x]) = if x.pending then h else h ++ [x] := by
  simp only [popPendingIfLast, List.getLast?_concat, List.dropLast_concat]

theorem set_last_concat_aux {α : Type} (l : List α) (a x : α) :
    (l ++ [a]).set l.length x = l ++ [x] := by
  induction l with
  | nil => rfl
  | cons b tl ih =>
    simp only [List.cons_append, List.length_cons, List.set]
    show b :: (tl ++ [a]).set tl.length x = b :: (tl ++ [x])
    rw [ih]

theorem set_last_concat {α : Type} (l : List α) (a x : α) :
    (l ++ [a]).set ((l ++ [a]).length - 1) x = l ++ [x] := by
  have hl : (l ++ [a]).length - 1 = l.length := by simp
  rw [hl]
  exact set_last_concat_aux l a x

/-- C9: with no pending entry to start, the chat handler's optimistic
save leaves exactly one pending entry, every completed request (success
or failure) leaves none, and a failed request (LLM timeout or broadcast
error) restores the conversation exactly to its prior state. -/
theorem chat_pending_atomicity (history : List ChatEntry) (p : Bytes)
    (llmR : Except Bytes Bytes) (postR : Except Bytes String)
    (h0 : countPending history = 0) :
    countPending (apiChatMid history p) = 1 ∧
    countPending (apiChat history p llmR postR) = 0 ∧
    (((∃ e, llmR = .error e) ∨ (∃ e, postR = .error e)) →
      apiChat history p llmR postR = history) := by
  have hfilter0 : history.filter (·.pending) = [] :=
    List.length_eq_zero.mp h0
  have hmid : countPending (apiChatMid history p) = 1 := by
    unfold countPending apiChatMid
    rw [List.filter_append, hfilter0]
    rfl
  have hpop : popPendingIfLast (apiChatMid history p) = history := by
    unfold apiChatMid
    rw [popPendingIfLast_concat]
    rfl
  have hset : ∀ res txid, apiChat history p (.ok res) (.ok txid) =
      history ++ [⟨p, some res, some txid, false⟩] := by
    intro res txid
    show (apiChatMid history p).set ((apiChatMid history p).length - 1) _ =
      _
    exact set_last_concat history _ _
  refine ⟨hmid, ?_, ?_⟩
  · cases llmR with
    | error e =>
      show countPending (popPendingIfLast (apiChatMid history p)) = 0
      rw [hpop]
      exact h0
    | ok res =>
      cases postR with
      | error e =>
        show countPending (popPendingIfLast (apiChatMid history p)) = 0
        rw [hpop]
        exact h0
      | ok txid =>
        rw [hset res txid]
        unfold countPending
        rw [List.filter_append, hfilter0]
        rfl
  · intro hfail
    cases llmR with
    | error e => exact hpop
    | ok res =>
      cases postR with
      | error e2 => exact hpop
      | ok txid =>
        rcases hfail with ⟨e, habs⟩ | ⟨e, habs⟩
        · exact Except.noConfusion habs
        · exact Except.noConfusion habs

/-- Witness for C9: from an empty conversation, a chat attempt whose
on-chain post fails leaves the conversation empty again. -/
theorem chat_pending_atomicity_witness :
    countPending [] = 0 ∧
    apiChat [] (str "hi") (Except.ok (str "yo"))
      (Except.error (str "broke")) = [] :=
  ⟨rfl,
   (chat_pending_atomicity [] (str "hi") (Except.ok (str "yo"))
      (Except.error (str "broke")) rfl).2.2 (Or.inr ⟨str "broke", rfl⟩)⟩

/-- An output the `JOB` decoder must skip: not null-data, or its script
fails to parse, or it parses without a `JOB` first push. -/
def SkippableVout (ps : String → Option (List Chunk)) (v : Vout) : Prop :=
  isNullDataV v = false ∨
    ∃ spk, v.scriptPubKey = some spk ∧ spk.typ = "nulldata" ∧
      (ps spk.hex = none ∨
        ∃ chunks, ps spk.hex = some chunks ∧
          ∀ p0 p1 tl, chunkBufs chunks = p0 :: p1 :: tl →
            p0 ≠ str "JOB")

theorem isNullDataV_none {v : Vout} (hspk : v.scriptPubKey = none) :
    isNullDataV v = false := by
  simp [isNullDataV, hspk]

theorem isNullDataV_true {v : Vout} {spk : ScriptPubKey}
    (hspk : v.scriptPubKey = some spk) (hty : spk.typ = "nulldata") :
    isNullDataV v = true := by
  simp [isNullDataV, hspk, hty]

theorem isNullDataV_other {v : Vout} {spk : ScriptPubKey}
    (hspk : v.scriptPubKey = some spk) (hty : ¬spk.typ = "nulldata") :
    isNullDataV v = false := by
  simp only [isNullDataV, hspk, beq_eq_false_iff_ne, ne_eq]
  exact hty

theorem parseJobFromVouts_skip {ps : String → Option (List Chunk)}
    {v : Vout} (rest : List Vout) (h : SkippableVout ps v) :
    parseJobFromVouts ps (v :: rest) = parseJobFromVouts ps rest := by
  rcases h with h | ⟨spk, hspk, hty, hbad⟩
  · cases hspk : v.scriptPubKey with
    | none => simp only [parseJobFromVouts, hspk]
    | some spk =>
      have hty : ¬spk.typ = "nulldata" := by
        unfold isNullDataV at h
        rw [hspk] at h
        simpa using h
      simp only [parseJobFromVouts, hspk, if_neg hty]
  · rcases hbad with hnone | ⟨chunks, hsome, htag⟩
    · simp only [parseJobFromVouts, hspk, hty, eq_self_iff_true, if_true,
        hnone]
    · simp only [parseJobFromVouts, hspk, hty, eq_self_iff_true, if_true,
        hsome]
      cases hcb : chunkBufs chunks with
      | nil => simp only [hcb]
      | cons p0 t =>
        cases t with
        | nil => simp only [hcb]
        | cons p1 tl => simp only [hcb, if_neg (htag p0 p1 tl hcb)]

theorem parseJobFromVouts_found {ps : String → Option (List Chunk)}
    {v : Vout} {spk : ScriptPubKey} {chunks : List Chunk} {p1 : Bytes}
    {tl : List Bytes} (rest : List Vout)
    (hspk : v.scriptPubKey = some spk) (hty : spk.typ = "nulldata")
    (hsome : ps spk.hex = some chunks)
    (hcb : chunkBufs chunks = str "JOB" :: p1 :: tl) :
    parseJobFromVouts ps (v :: rest) = some p1 := by
  simp only [parseJobFromVouts, hspk, hty, eq_self_iff_true, if_true,
    hsome, hcb]

theorem parseJobFromVouts_filter (ps : String → Option (List Chunk))
    (l : List Vout) :
    parseJobFromVouts ps l =
      parseJobFromVouts ps (l.filter isNullDataV) := by
  induction l using parseJobFromVouts.induct ps with
  | case1 => rfl
  | case2 v rest hspk ih =>
    have hnd : isNullDataV v = false := isNullDataV_none hspk
    have hskip : SkippableVout ps v := Or.inl hnd
    rw [List.filter_cons_of_neg (by simp [hnd]),
      parseJobFromVouts_skip rest hskip]
    exact ih
  | case3 v rest spk hspk hty hnone ih =>
    have hnd : isNullDataV v = true := isNullDataV_true hspk hty
    have hskip : SkippableVout ps v :=
      Or.inr ⟨spk, hspk, hty, Or.inl hnone⟩
    rw [List.filter_cons_of_pos hnd, parseJobFromVouts_skip rest hskip,
      parseJobFromVouts_skip (rest.filter isNullDataV) hskip]
    exact ih
  | case4 v rest spk hspk hty chunks hsome p1 tail hcb =>
    have hnd : isNullDataV v = true := isNullDataV_true hspk hty
    rw [List.filter_cons_of_pos hnd,
      parseJobFromVouts_found rest hspk hty hsome hcb,
      parseJobFromVouts_found (rest.filter isNullDataV) hspk hty hsome hcb]
  | case5 v rest spk hspk hty chunks hsome p0 p1 tail hcb hne ih =>
    have hnd : isNullDataV v = true := isNullDataV_true hspk hty
    have hskip : SkippableVout ps v :=
      Or.inr ⟨spk, hspk, hty, Or.inr ⟨chunks, hsome, by
        intro q0 q1 ql hq
        rw [hcb] at hq
        cases hq
        exact hne⟩⟩
    rw [List.filter_cons_of_pos hnd, parseJobFromVouts_skip rest hskip,
      parseJobFromVouts_skip (rest.filter isNullDataV) hskip]
    exact ih
  | case6 v rest spk hspk hty chunks hsome hnocons ih =>
    have hnd : isNullDataV v = true := isNullDataV_true hspk hty
    have hskip : SkippableVout ps v :=
      Or.inr ⟨spk, hspk, hty, Or.inr ⟨chunks, hsome,
        fun p0 p1 tl hq => (hnocons p0 p1 tl hq).elim⟩⟩
    rw [List.filter_cons_of_pos hnd, parseJobFromVouts_skip rest hskip,
      parseJobFromVouts_skip (rest.filter isNullDataV) hskip]
    exact ih
  | case7 v rest spk hspk hty ih =>
    have hnd : isNullDataV v = false := isNullDataV_other hspk hty
    have hskip : SkippableVout ps v := Or.inl hnd
    rw [List.filter_cons_of_neg (by simp [hnd]),
      parseJobFromVouts_skip rest hskip]
    exact ih

theorem parseJobFromVouts_some {ps : String → Option (List Chunk)}
    {l : List Vout} {p : Bytes}
    (h : parseJobFromVouts ps l = some p) :
    ∃ v ∈ l, ∃ spk chunks tl, v.scriptPubKey = some spk ∧
      spk.typ = "nulldata" ∧ ps spk.hex = some chunks ∧
      chunkBufs chunks = str "JOB" :: p :: tl := by
  induction l using parseJobFromVouts.induct ps with
  | case1 => exact absurd h (by simp [parseJobFromVouts])
  | case2 v rest hspk ih =>
    rw [parseJobFromVouts_skip rest (Or.inl (isNullDataV_none hspk))] at h
    obtain ⟨v2, hv2, rest2⟩ := ih h
    exact ⟨v2, List.mem_cons_of_mem _ hv2, rest2⟩
  | case3 v rest spk hspk hty hnone ih =>
    rw [parseJobFromVouts_skip rest
      (Or.inr ⟨spk, hspk, hty, Or.inl hnone⟩)] at h
    obtain ⟨v2, hv2, rest2⟩ := ih h
    exact ⟨v2, List.mem_cons_of_mem _ hv2, rest2⟩
  | case4 v rest spk hspk hty chunks hsome p1 tail hcb =>
    rw [parseJobFromVouts_found rest hspk hty hsome hcb] at h
    have hp : p1 = p := Option.some.inj h
    subst hp
    exact ⟨v, List.mem_cons_self _ _, spk, chunks, tail, hspk, hty,
      hsome, hcb⟩
  | case5 v rest spk hspk hty chunks hsome p0 p1 tail hcb hne ih =>
    rw [parseJobFromVouts_skip rest
      (Or.inr ⟨spk, hspk, hty, Or.inr ⟨chunks, hsome, by
        intro q0 q1 ql hq
        rw [hcb] at hq
        cases hq
        exact hne⟩⟩)] at h
    obtain ⟨v2, hv2, rest2⟩ := ih h
    exact ⟨v2, List.mem_cons_of_mem _ hv2, rest2⟩
  | case6 v rest spk hspk hty chunks hsome hnocons ih =>
    rw [parseJobFromVouts_skip rest
      (Or.inr ⟨spk, hspk, hty, Or.inr ⟨chunks, hsome,
        fun p0 p1 tl hq => (hnocons p0 p1 tl hq).elim⟩⟩)] at h
    obtain ⟨v2, hv2, rest2⟩ := ih h
    exact ⟨v2, List.mem_cons_of_mem _ hv2, rest2⟩
  | case7 v rest spk hspk hty ih =>
    rw [parseJobFromVouts_skip rest
      (Or.inl (isNullDataV_other hspk hty))] at h
    obtain ⟨v2, hv2, rest2⟩ := ih h
    exact ⟨v2, List.mem_cons_of_mem _ hv2, rest2⟩

/-- C10: the tagged-data decoder is total and safe: it is a function on
arbitrary transactions returning an extracted prompt or `none` (the
caught script-parse exception is the `none` of the parse capability);
only null-data outputs influence the result; any malformed or foreign-tag
output is skipped without effect; and a returned prompt always comes from
a null-data output whose script parses with a `JOB` first push. -/
theorem decoder_safety (ps : String → Option (List Chunk)) :
    (∀ tx : Tx, parseJobFromTx ps tx =
      parseJobFromTx ps ⟨tx.txid, tx.vout.filter isNullDataV⟩) ∧
    (∀ (v : Vout) (rest : List Vout) (txid : String), SkippableVout ps v →
      parseJobFromTx ps ⟨txid, v :: rest⟩ =
        parseJobFromTx ps ⟨txid, rest⟩) ∧
    (∀ (tx : Tx) (p : Bytes), parseJobFromTx ps tx = some p →
      ∃ v ∈ tx.vout, ∃ spk chunks tl, v.scriptPubKey = some spk ∧
        spk.typ = "nulldata" ∧ ps spk.hex = some chunks ∧
        chunkBufs chunks = str "JOB" :: p :: tl) :=
  ⟨fun tx => parseJobFromVouts_filter ps tx.vout,
   fun _ rest _ h => parseJobFromVouts_skip rest h,
   fun _ _ h => parseJobFromVouts_some h⟩

/-- Witness for C10: the fixture transaction decodes the same with its
non-data outputs filtered away, and its decoded prompt is traced back to
the null-data `JOB` output. -/
theorem decoder_safety_witness :
    parseJobFromTx cParse (cTxAt 500) =
      parseJobFromTx cParse ⟨"t1", (cTxAt 500).vout.filter isNullDataV⟩ ∧
    ∃ v ∈ (cTxAt 500).vout, ∃ spk chunks tl,
      v.scriptPubKey = some spk ∧ spk.typ = "nulldata" ∧
      cParse spk.hex = some chunks ∧
      chunkBufs chunks = str "JOB" :: str "hi" :: tl :=
  ⟨(decoder_safety cParse).1 (cTxAt 500),
   (decoder_safety cParse).2.2 (cTxAt 500) (str "hi") (by decide)⟩

end BsvAgent
